import Mathlib

/-!
Verification of the message classification and filtering pipeline of
`foundry_to_docx.py` (FoundryToPDF).

The Python source is shallowly embedded below.  Strings are Lean `String`s
(lists of characters); Python dicts holding messages are embedded as a
structure whose fields are the results of the `msg.get(...)` accesses that the
code performs; the per-session mutable `last_key` slot is threaded explicitly
through a step function.  The third-party HTML parsing done through
BeautifulSoup (`get_text`, `select_one(".cls")`) is modelled by a restricted
HTML tokenizer that covers tag skipping, the named character references
`lt`, `gt` and `amp` (semicolon-terminated), and `class` attributes in double
quotes; this covers every construct exercised by the theorems below.
-/

/-- Whitespace test modelling the characters matched both by the regex
class used in `clean_html` (`\s`) and by `str.strip()`, restricted to the
ASCII whitespace characters. -/
def isWsChar (c : Char) : Bool :=
  c = ' ' || c = '\t' || c = '\n' || c = '\r' || c = '\x0b' || c = '\x0c'

/-- Python `str.strip()` on a character list (ASCII whitespace). -/
def trimL (l : List Char) : List Char :=
  ((l.dropWhile isWsChar).reverse.dropWhile isWsChar).reverse

/-- Python `str.strip()`. -/
def trimS (s : String) : String := ⟨trimL s.data⟩

/-- Python `str.lower()` restricted to ASCII letters. -/
def lowerS (s : String) : String := ⟨s.data.map Char.toLower⟩

/-- Python `str.upper()` restricted to ASCII letters. -/
def upperS (s : String) : String := ⟨s.data.map Char.toUpper⟩

/-- Splits a character list into its maximal whitespace-free words.
`acc` holds the (reversed) word being scanned. -/
def wordsAux : List Char → List Char → List (List Char)
  | acc, [] => if acc.isEmpty then [] else [acc.reverse]
  | acc, c :: cs =>
    if isWsChar c then
      if acc.isEmpty then wordsAux [] cs else acc.reverse :: wordsAux [] cs
    else wordsAux (c :: acc) cs

/-- Joins words with single spaces. -/
def unwords : List (List Char) → List Char
  | [] => []
  | [w] => w
  | w :: ws => w ++ ' ' :: unwords ws

/-- Models `re.sub(r"\s+", " ", text).strip()`: collapapsing every whitespace
run to a single space and trimming is the same as joining the
whitespace-free words of the text with single spaces. -/
def normWsL (l : List Char) : List Char := unwords (wordsAux [] l)

/-- Raw token of the restricted HTML tokenizer: a decoded text character or
the character material between `<` and `>` of a markup tag. -/
inductive RawTok where
  | ch (c : Char)
  | tag (inside : List Char)
deriving DecidableEq, Repr

/-- Restricted model of `html.parser` tokenization as used through
BeautifulSoup: `some acc` means the scanner is inside a tag (collecting its
reversed contents), `none` means it is in text.  In text, the character
references `&lt;` `&gt;` `&amp;` decode to their characters, `<` followed by a
letter, `/` or `!` opens a tag, and every other character is text.  An
unterminated tag at end of input is discarded. -/
def tokAux : Option (List Char) → List Char → List RawTok
  | some _, [] => []
  | some acc, c :: cs =>
    if c = '>' then RawTok.tag acc.reverse :: tokAux none cs
    else tokAux (some (c :: acc)) cs
  | none, [] => []
  | none, '&' :: 'l' :: 't' :: ';' :: rest => RawTok.ch '<' :: tokAux none rest
  | none, '&' :: 'g' :: 't' :: ';' :: rest => RawTok.ch '>' :: tokAux none rest
  | none, '&' :: 'a' :: 'm' :: 'p' :: ';' :: rest => RawTok.ch '&' :: tokAux none rest
  | none, '&' :: cs => RawTok.ch '&' :: tokAux none cs
  | none, '<' :: d :: rest =>
    if d.isAlpha || d = '/' || d = '!' then tokAux (some [d]) rest
    else RawTok.ch '<' :: tokAux none (d :: rest)
  | none, '<' :: [] => [RawTok.ch '<']
  | none, c :: cs => RawTok.ch c :: tokAux none cs

/-- The text character carried by a token, if any. -/
def tokChar : RawTok → Option Char
  | RawTok.ch c => some c
  | RawTok.tag _ => none

/-- Model of `BeautifulSoup(s, "html.parser").get_text(separator="")`:
the decoded text characters, in order, with markup discarded. -/
def getTextL (l : List Char) : List Char := (tokAux none l).filterMap tokChar

/-- Model of `clean_html` (`foundry_to_docx.py`, lines 136-139): strip markup
with `get_text(separator="")`, collapse whitespace runs to single spaces and
trim. -/
def clean_html (s : String) : String := ⟨normWsL (getTextL s.data)⟩

/-- Models `(.*)$` (no DOTALL, no MULTILINE) applied to the remainder `g` of
the subject after the rest of the pattern: it matches iff `g` contains no
newline except possibly as its very last character, and the captured group
excludes such a trailing newline. -/
def dotStarDollar (g : List Char) : Option (List Char) :=
  if g.dropLast.contains '\n' then none
  else if g.getLast? = some '\n' then some g.dropLast
  else some g

/-- Models the subheader regex match of `foundry_to_docx.py`, line 484
(caret, whitespace star, three hash marks, whitespace plus, captured
dot-star, dollar), returning the captured group: optional leading whitespace, exactly
three `#` characters (a fourth `#` makes the required `\s+` fail), at least
one whitespace character, then the rest of the line. -/
def subheaderGroup (s : List Char) : Option (List Char) :=
  match s.dropWhile isWsChar with
  | c1 :: c2 :: c3 :: r =>
    if c1 = '#' ∧ c2 = '#' ∧ c3 = '#' then
      match r with
      | c :: _ => if isWsChar c then dotStarDollar (r.dropWhile isWsChar) else none
      | [] => none
    else none
  | _ => none

/-- Python `\w` restricted to ASCII: letters, digits and underscore. -/
def isWordChar (c : Char) : Bool := c.isAlphanum || c = '_'

/-- Whether `afk` or `brb` (case-insensitively) starts at the head of the
list with a word boundary after it. -/
def afkAt : List Char → Bool
  | a :: b :: c :: rest =>
    ((a.toLower = 'a' && b.toLower = 'f' && c.toLower = 'k') ||
     (a.toLower = 'b' && b.toLower = 'r' && c.toLower = 'b')) &&
    (match rest with
     | [] => true
     | d :: _ => !isWordChar d)
  | _ => false

/-- Search loop for the AFK pattern: `prev` is the character immediately
before the current position (`none` at the start of the subject); a match
needs a word boundary before it, i.e. a non-word `prev`. -/
def afkSearchAux (prev : Option Char) : List Char → Bool
  | [] => false
  | x :: xs =>
    ((match prev with
      | none => true
      | some p => !isWordChar p) && afkAt (x :: xs)) || afkSearchAux (some x) xs

/-- Model of `re.compile(r"\b(afk|brb)\b", re.IGNORECASE).search` applied to
the default `AFK_PATTERN` (`foundry_to_docx.py`, lines 87 and 458-459):
whether the word `afk` or `brb` occurs in the string delimited by word
boundaries. -/
def defaultAfkMatch (s : String) : Bool := afkSearchAux none s.data

/-- Splits a character list at its first `>`: the characters before it and
the characters after it. -/
def splitAtGt : List Char → Option (List Char × List Char)
  | [] => none
  | c :: cs =>
    if c = '>' then some ([], cs)
    else match splitAtGt cs with
      | none => none
      | some (a, b) => some (c :: a, b)

/-- Model of `re.sub(r"<[^>]+>", "", s)` (flavor stripping in
`extract_roll_info`, line 339): repeatedly delete a `<`, at least one
non-`>` character and the following `>`.  `fuel` bounds the recursion and is
instantiated with the length of the input, which suffices because every step
consumes at least one character. -/
def stripAngleF : Nat → List Char → List Char
  | 0, l => l
  | _ + 1, [] => []
  | fuel + 1, c :: cs =>
    if c = '<' then
      match splitAtGt cs with
      | some (inside, after) =>
        if inside.isEmpty then c :: stripAngleF fuel cs else stripAngleF fuel after
      | none => c :: stripAngleF fuel cs
    else c :: stripAngleF fuel cs

/-- Model of `re.sub(r"<[^>]+>", "", s)` on strings. -/
def stripAngleTags (s : String) : String := ⟨stripAngleF s.data.length s.data⟩

/-- Tag-name and attribute-name characters of the restricted HTML model. -/
def isNameChar (c : Char) : Bool := c.isAlphanum || c = '-'

/-- Attribute parser of the restricted HTML model: whitespace-separated
`key="value"`, `key=value` or bare `key` items.  `fuel` bounds the recursion
and is instantiated with the length of the input. -/
def parseAttrsF : Nat → List Char → List (List Char × List Char)
  | 0, _ => []
  | _ + 1, [] => []
  | fuel + 1, l =>
    let l1 := l.dropWhile (fun c => isWsChar c || c = '/')
    match l1 with
    | [] => []
    | _ =>
      let key := (l1.takeWhile (fun c => !isWsChar c && c ≠ '=')).map Char.toLower
      let r1 := (l1.dropWhile (fun c => !isWsChar c && c ≠ '=')).dropWhile isWsChar
      match r1 with
      | '=' :: r2 =>
        let r3 := r2.dropWhile isWsChar
        match r3 with
        | '"' :: r4 =>
          (key, r4.takeWhile (fun c => c ≠ '"')) ::
            parseAttrsF fuel ((r4.dropWhile (fun c => c ≠ '"')).drop 1)
        | _ =>
          (key, r3.takeWhile (fun c => !isWsChar c)) ::
            parseAttrsF fuel (r3.dropWhile (fun c => !isWsChar c))
      | _ => (key, []) :: parseAttrsF fuel r1

/-- Parsed form of the material between `<` and `>`. -/
structure TagInfo where
  closing : Bool
  name : List Char
  attrs : List (List Char × List Char)

/-- Parses the inside of a tag: an optional leading `/` marks a closing tag,
then the (lower-cased) tag name, then attributes. -/
def parseTag (inside : List Char) : TagInfo :=
  match inside with
  | '/' :: rest => ⟨true, (rest.takeWhile isNameChar).map Char.toLower, []⟩
  | _ =>
    ⟨false, (inside.takeWhile isNameChar).map Char.toLower,
      parseAttrsF inside.length (inside.dropWhile isNameChar)⟩

/-- Looks up an attribute value by name. -/
def attrGet : List (List Char × List Char) → List Char → Option (List Char)
  | [], _ => none
  | (k, v) :: rest, key => if k = key then some v else attrGet rest key

/-- Finds the first opening tag whose `class` attribute contains the given
class name (as one of its whitespace-separated words); returns the tag name
and the tokens after the tag. -/
def findClassTag (cls : List Char) : List RawTok → Option (List Char × List RawTok)
  | [] => none
  | RawTok.ch _ :: rest => findClassTag cls rest
  | RawTok.tag inside :: rest =>
    let ti := parseTag inside
    if !ti.closing && (wordsAux [] ((attrGet ti.attrs ('c' :: 'l' :: 'a' :: 's' :: 's' :: [])).getD [])).contains cls
    then some (ti.name, rest)
    else findClassTag cls rest

/-- Collects the text of an element for `get_text(strip=True)`: each maximal
text run between tags is trimmed and the runs are concatenated, stopping at
the first closing tag carrying the element name (nested same-name tags are not
needed by any input considered here).  `acc` is the reversed current run. -/
def collectText (name : List Char) : List Char → List RawTok → List Char
  | acc, [] => trimL acc.reverse
  | acc, RawTok.ch c :: rest => collectText name (c :: acc) rest
  | acc, RawTok.tag inside :: rest =>
    let ti := parseTag inside
    if ti.closing && ti.name = name then trimL acc.reverse
    else trimL acc.reverse ++ collectText name [] rest

/-- Model of `soup.select_one(".cls")` followed by `.get_text(strip=True)`
(`foundry_to_docx.py`, lines 335-338): the stripped text of the first element
carrying the class, or `none` when no element has the class. -/
def selectClassText (cls : String) (html : String) : Option String :=
  match findClassTag cls.data (tokAux none html.data) with
  | some (name, rest) => some ⟨collectText name [] rest⟩
  | none => none

/-- Python substring test `pat in l` on character lists. -/
def isPrefixOfL : List Char → List Char → Bool
  | [], _ => true
  | _ :: _, [] => false
  | p :: ps, c :: cs => p = c && isPrefixOfL ps cs

/-- Python substring test `pat in l` on character lists. -/
def containsSub (pat : List Char) : List Char → Bool
  | [] => pat.isEmpty
  | c :: cs => isPrefixOfL pat (c :: cs) || containsSub pat cs

/-- The literal default configuration dictionary `CONFIG`
(`foundry_to_docx.py`, lines 51-95), as an association list; `load_config`
updates are modelled by consing the new binding in front. -/
def CONFIG0 : List (String × String) :=
  [("TITLE", "FoundryVTT Session Transcript"),
   ("DEFAULT_SPEAKER", "Handler"),
   ("PRINT2PDF", "YES"),
   ("FONT_TITLE", "Times New Roman"),
   ("FONT_CAST", "Times New Roman"),
   ("FONT_HEADER", "Times New Roman"),
   ("FONT_SUBHEADER", "Times New Roman"),
   ("FONT_BODY", "Times New Roman"),
   ("FONT_PAGE_NUMBER", "Times New Roman"),
   ("COLOR_TITLE", "000000"),
   ("COLOR_CAST", "000000"),
   ("COLOR_HEADER", "000000"),
   ("COLOR_SUBHEADER", "000000"),
   ("COLOR_BODY", "000000"),
   ("COLOR_PAGE_NUMBER", "000000"),
   ("FONT_SIZE_TITLE", "24"),
   ("FONT_SIZE_CAST", "12"),
   ("FONT_SIZE_HEADER", "14"),
   ("FONT_SIZE_SUBHEADER", "12"),
   ("FONT_SIZE_BODY", "12"),
   ("FONT_SIZE_PAGE_NUMBER", "10"),
   ("PAGE_BREAK_BEFORE_HEADERS", "YES"),
   ("PAGE_BREAK_BEFORE_SUBHEADERS", "YES"),
   ("SUBHEAD_BOOKMARKS", "YES"),
   ("OMIT_AFK_MESSAGES", "YES"),
   ("AFK_PATTERN", "\\b(afk|brb)\\b"),
   ("OMIT_WHISPERS", "YES"),
   ("OMIT_PRIVATE_GM_ROLLS", "YES"),
   ("OMIT_BLIND_GM_ROLLS", "YES"),
   ("OMIT_SELF_ROLLS", "YES"),
   ("OMIT_PUBLIC_ROLLS", "NO")]

/-- Dictionary lookup `CONFIG.get(key)`: first binding wins. -/
def cfgGet : List (String × String) → String → Option String
  | [], _ => none
  | (a, b) :: rest, k => if a = k then some b else cfgGet rest k

/-- Model of `is_yes` (`foundry_to_docx.py`, lines 201-202):
`CONFIG.get(key, "NO").strip().upper() == "YES"`. -/
def is_yes (cfg : List (String × String)) (key : String) : Bool :=
  upperS (trimS ((cfgGet cfg key).getD "NO")) == "YES"

/-- The configuration surface the classification pipeline reads, extracted
from the configuration dictionary.  `afkMatch` is the compiled
`AFK_PATTERN` regex search (the `re` engine is abstracted as a predicate on
the normalized text; `defaultAfkMatch` instantiates it for the default
pattern). -/
structure Config where
  defaultSpeaker : String
  omitAfk : Bool
  afkMatch : String → Bool
  subheadBookmarks : Bool
  omitWhispers : Bool
  omitPrivateGmRolls : Bool
  omitBlindGmRolls : Bool
  omitSelfRolls : Bool
  omitPublicRolls : Bool

/-- Builds the pipeline configuration from a configuration dictionary, the
way `process_file` and `should_omit_visibility` read it. -/
def buildConfig (raw : List (String × String)) (afkM : String → Bool) : Config where
  defaultSpeaker := (cfgGet raw "DEFAULT_SPEAKER").getD "Handler"
  omitAfk := is_yes raw "OMIT_AFK_MESSAGES"
  afkMatch := afkM
  subheadBookmarks := is_yes raw "SUBHEAD_BOOKMARKS"
  omitWhispers := is_yes raw "OMIT_WHISPERS"
  omitPrivateGmRolls := is_yes raw "OMIT_PRIVATE_GM_ROLLS"
  omitBlindGmRolls := is_yes raw "OMIT_BLIND_GM_ROLLS"
  omitSelfRolls := is_yes raw "OMIT_SELF_ROLLS"
  omitPublicRolls := is_yes raw "OMIT_PUBLIC_ROLLS"

/-- The default configuration: the literal `CONFIG` dictionary with the
default AFK pattern. -/
def defaultConfig : Config := buildConfig CONFIG0 defaultAfkMatch

/-- A chat message, with one field per dictionary access the pipeline
performs.  `content = none` models a JSON `null` content (an absent key is
`msg.get("content", "")`, i.e. `some ""`); `alias` is
`(msg.get("speaker") or ..).get("alias")`; `whisper` is truthy iff nonempty;
`rollMode = none` models an absent or null `rollMode`. -/
structure Msg where
  content : Option String
  flavor : String
  speakerAlias : Option String
  whisper : List String
  blind : Bool
  rollMode : Option String
  style : Nat

/-- Model of `(msg.get("speaker") or ..).get("alias") or
CONFIG.get("DEFAULT_SPEAKER", "Handler")`: Python `or` falls through both on
a missing alias and on an empty-string alias. -/
def speakerOf (cfg : Config) (m : Msg) : String :=
  match m.speakerAlias with
  | some a => if a = "" then cfg.defaultSpeaker else a
  | none => cfg.defaultSpeaker

/-- Model of `should_omit_visibility` (`foundry_to_docx.py`, lines 347-378):
first matching enabled check wins; `none` means visible.  (When the function
returns a reason it is always a nonempty string, so the fallback
`reason or "VISIBILITY"` in the caller never fires.) -/
def should_omit_visibility (cfg : Config) (m : Msg) : Option String :=
  if !m.whisper.isEmpty && cfg.omitWhispers then some "WHISPER"
  else if m.blind && cfg.omitBlindGmRolls then some "BLIND"
  else
    let rm := lowerS (trimS (m.rollMode.getD ""))
    if (rm = "gmroll" || rm = "gm" || rm = "gm-roll") && cfg.omitPrivateGmRolls then
      some "PRIVATE_GM_ROLL"
    else if (rm = "blind" || rm = "blindroll" || rm = "blind-roll") && cfg.omitBlindGmRolls then
      some "BLIND"
    else if (rm = "self" || rm = "selfroll" || rm = "self-roll") && cfg.omitSelfRolls then
      some "SELF_ROLL"
    else if (rm = "public" || rm = "publicroll" || rm = "public-roll") && cfg.omitPublicRolls then
      some "PUBLIC_ROLL"
    else none

/-- Model of `extract_roll_info` (`foundry_to_docx.py`, lines 329-344): a
message whose raw content contains the substring `dice-roll` renders as
`<speaker> rolls <formula> -> <total>`, where formula and total are the
stripped texts of the first `.dice-formula` and `.dice-total` elements (`?`
when absent), with the tag-stripped flavor appended in parentheses when it
is nonempty.  Returns `none` for non-roll content. -/
def extract_roll_info (cfg : Config) (m : Msg) : Option String :=
  let content := m.content.getD ""
  let speaker := speakerOf cfg m
  if containsSub "dice-roll".data content.data then
    let formula := (selectClassText "dice-formula" content).getD "?"
    let total := (selectClassText "dice-total" content).getD "?"
    let flavorText := trimS (stripAngleTags m.flavor)
    let result := speaker ++ " rolls " ++ formula ++ " -> " ++ total
    some (if flavorText ≠ "" then result ++ " (" ++ flavorText ++ ")" else result)
  else none

/-- A renderable block emitted into the main document: a Heading-2
sub-section header (`add_subheader_paragraph`) or a styled message paragraph
(`add_styled_paragraph`, which renders `speaker: text`). -/
inductive Block where
  | subhead (title : String)
  | para (speaker : String) (text : String) (style : Nat)
deriving DecidableEq, Repr

/-- The visible line of a block: `add_styled_paragraph` writes a bold
`speaker: ` run followed by the content. -/
def renderBlock : Block → String
  | Block.subhead t => t
  | Block.para sp text _ => sp ++ ": " ++ text

/-- An entry of `removed_list`: `(reason, speaker, cleaned)`. -/
structure Omission where
  reason : String
  speaker : String
  text : String
deriving DecidableEq, Repr

/-- The duplicate key: `(speaker_alias.strip(), cleaned.strip())`. -/
abbrev DupKey := String × String

/-- What one loop iteration of `process_file` emits: the document blocks, the
`removed_list` entries, and the value of `last_key` afterwards. -/
structure MsgOut where
  blocks : List Block
  omits : List Omission
  key : Option DupKey
deriving DecidableEq, Repr

/-- Duplicate check, roll rendering and default emission
(`foundry_to_docx.py`, lines 504-522). -/
def stepDup (cfg : Config) (k : Option DupKey) (m : Msg) (cleaned : String) : MsgOut :=
  let sp := speakerOf cfg m
  if k = some (trimS sp, trimS cleaned) then
    ⟨[], [⟨"DUPLICATE", sp, cleaned⟩], k⟩
  else
    match extract_roll_info cfg m with
    | some summary => ⟨[Block.para sp summary 0], [], some (trimS sp, trimS summary)⟩
    | none => ⟨[Block.para sp cleaned m.style], [], some (trimS sp, trimS cleaned)⟩

/-- Visibility-based omission (`foundry_to_docx.py`, lines 492-500):
an omitted message leaves `last_key` unchanged. -/
def stepVis (cfg : Config) (k : Option DupKey) (m : Msg) (cleaned : String) : MsgOut :=
  match should_omit_visibility cfg m with
  | some reason => ⟨[], [⟨reason, speakerOf cfg m, cleaned⟩], k⟩
  | none => stepDup cfg k m cleaned

/-- Subheader detection (`foundry_to_docx.py`, lines 483-490): when enabled
and the normalized text matches the `###` convention, a subheader block is
emitted if the trimmed title is nonempty, and `last_key` is reset either
way. -/
def stepSub (cfg : Config) (k : Option DupKey) (m : Msg) (cleaned : String) : MsgOut :=
  match (if cfg.subheadBookmarks then subheaderGroup cleaned.data else none) with
  | some g =>
    if trimS ⟨g⟩ ≠ "" then ⟨[Block.subhead (trimS ⟨g⟩)], [], none⟩ else ⟨[], [], none⟩
  | none => stepVis cfg k m cleaned

/-- Empty-content drop and AFK omission (`foundry_to_docx.py`,
lines 468-480): an empty normalized text resets `last_key`; an AFK match is
recorded and leaves `last_key` unchanged. -/
def stepContent (cfg : Config) (k : Option DupKey) (m : Msg) (cleaned : String) : MsgOut :=
  if cleaned = "" then ⟨[], [], none⟩
  else if cfg.omitAfk && cfg.afkMatch cleaned then
    ⟨[], [⟨"AFK", speakerOf cfg m, cleaned⟩], k⟩
  else stepSub cfg k m cleaned

/-- One iteration of the message loop of `process_file`
(`foundry_to_docx.py`, lines 462-522): a `null` content resets `last_key`
and is silently dropped; otherwise the message is classified against the
normalized content. -/
def step (cfg : Config) (k : Option DupKey) (m : Msg) : MsgOut :=
  match m.content with
  | none => ⟨[], [], none⟩
  | some raw => stepContent cfg k m (clean_html raw)

/-- Runs the message loop over a list, threading `last_key` and
concatenating the emitted blocks and omission entries in order. -/
def runMsgs (cfg : Config) : Option DupKey → List Msg → List Block × List Omission
  | _, [] => ([], [])
  | k, m :: ms =>
    let o := step cfg k m
    let rest := runMsgs cfg o.key ms
    (o.blocks ++ rest.1, o.omits ++ rest.2)

/-- Model of the per-session classification in `process_file`: `last_key`
starts out as `None` for each session. -/
def processSession (cfg : Config) (msgs : List Msg) : List Block × List Omission :=
  runMsgs cfg none msgs

/-- Days-to-civil-date conversion (proleptic Gregorian), as performed by
`datetime.fromtimestamp(.., tz=timezone.utc)`: returns `(year, month, day)`
for a count of days since 1970-01-01. -/
def civilFromDays (z0 : Int) : Int × Int × Int :=
  let z := z0 + 719468
  let era := z.fdiv 146097
  let doe := z - era * 146097
  let yoe := (doe - doe.fdiv 1460 + doe.fdiv 36524 - doe.fdiv 146096).fdiv 365
  let y := yoe + era * 400
  let doy := doe - (365 * yoe + yoe.fdiv 4 - yoe.fdiv 100)
  let mp := (5 * doy + 2).fdiv 153
  let d := doy - (153 * mp + 2).fdiv 5 + 1
  let m := mp + (if mp < 10 then 3 else -9)
  (y + (if m ≤ 2 then 1 else 0), m, d)

/-- The `(year, month, day)` of an epoch-seconds timestamp under UTC. -/
def epochSecsToYMD (secs : Int) : Int × Int × Int := civilFromDays (secs.fdiv 86400)

/-- Model of `datetime.fromtimestamp(secs, tz=timezone.utc)` reduced to the
date it produces: `fromtimestamp` raises for timestamps whose datetime falls
outside years 1 to 9999 (MINYEAR to MAXYEAR), and both validity boundaries
are midnight boundaries, so a timestamp is valid exactly when the year of
its UTC day is in that range; an invalid timestamp yields `none` (the raise
that the `try/except` of `parse_iso_or_epoch` swallows). -/
def fromtimestampYMD (secs : Int) : Option (Int × Int × Int) :=
  let ymd := epochSecsToYMD secs
  if 1 ≤ ymd.1 ∧ ymd.1 ≤ 9999 then some ymd else none

/-- The numeric branch of `parse_iso_or_epoch` (`foundry_to_docx.py`,
lines 144-151) reduced to the date it produces: values above `10^12` are
epoch milliseconds (`fromtimestamp(v / 1000.0)`; for whole-millisecond
inputs the sub-second remainder never moves the UTC date or the validity
check), other values are epoch seconds; a value whose date is out of range
produces no date (the exception path). -/
def epochNumToYMD (v : Int) : Option (Int × Int × Int) :=
  if v > 10 ^ 12 then fromtimestampYMD (v.fdiv 1000) else fromtimestampYMD v

/-- A timestamp candidate as `parse_iso_or_epoch` receives it: a JSON number
(embedded as an integer) or a string. -/
inductive TsValue where
  | num (n : Int)
  | strv (s : String)

/-- Model of `parse_iso_or_epoch` (`foundry_to_docx.py`, lines 141-161)
restricted to its numeric branch: an integer, or a nonempty all-digits
string, is interpreted as an epoch value, yielding no date when
`fromtimestamp` raises (the `except` path).  The ISO-8601 fallback branch
then reached for strings never parses an all-digits string whose epoch
interpretation failed (such a string has more than eight digits, which
`fromisoformat` rejects), and the fallback for non-numeric strings is
outside the scope of the claims; both are the unparsed candidate `none`. -/
def parse_iso_or_epoch : TsValue → Option (Int × Int × Int)
  | TsValue.num n => epochNumToYMD n
  | TsValue.strv s =>
    if !s.data.isEmpty && s.data.all Char.isDigit then
      epochNumToYMD (Int.ofNat (s.data.foldl (fun a c => a * 10 + (c.toNat - 48)) 0))
    else none

/-- English month name, as produced by `strftime("%B")`. -/
def monthName (m : Int) : String :=
  if m = 1 then "January" else if m = 2 then "February" else if m = 3 then "March"
  else if m = 4 then "April" else if m = 5 then "May" else if m = 6 then "June"
  else if m = 7 then "July" else if m = 8 then "August" else if m = 9 then "September"
  else if m = 10 then "October" else if m = 11 then "November"
  else if m = 12 then "December" else "Unknown"

/-- The date formatting of `get_session_date` (`foundry_to_docx.py`,
line 165): month name, space, day, comma, space, year. -/
def formatSessionDate (ymd : Int × Int × Int) : String :=
  monthName ymd.2.1 ++ " " ++ toString ymd.2.2 ++ ", " ++ toString ymd.1

/-- Convenience constructor for a message with default metadata: content and
speaker alias only. -/
def plainMsg (c : Option String) (a : Option String) : Msg :=
  ⟨c, "", a, [], false, none, 0⟩

/-- Whether a character list is empty or ends in a non-whitespace character
(normalized text always satisfies this). -/
def lastNonWs : List Char → Bool
  | [] => true
  | [c] => !isWsChar c
  | _ :: c :: cs => lastNonWs (c :: cs)

/-- Concrete messages used by the scenario theorems below. -/
def msgHello : Msg := plainMsg (some "<p>Hello</p>") (some "Alice")

/-- A message whose raw content is the empty string. -/
def msgEmptyContent : Msg := plainMsg (some "") (some "Alice")

/-- A plain-text message. -/
def msgSame : Msg := plainMsg (some "Same") (some "Alice")

/-- A plain-text message with different text. -/
def msgOther : Msg := plainMsg (some "Other") (some "Alice")

/-- The same text as `msgSame` but whispered. -/
def msgSameWhispered : Msg := ⟨some "Same", "", some "Alice", ["gm"], false, none, 0⟩

/-- A roll payload with no formula or total element. -/
def msgRollDiv : Msg := plainMsg (some "<div>dice-roll</div>") (some "Alice")

/-- A structurally different roll payload rendering to the same summary. -/
def msgRollPP : Msg := plainMsg (some "<p>dice-roll</p><p>extra</p>") (some "Alice")

/-- A plain message whose text equals the rendered roll summary. -/
def msgRollEcho : Msg := plainMsg (some "Alice rolls ? -> ?") (some "Alice")

/-- A roll payload without a speaker alias. -/
def msgNoAlias1 : Msg := plainMsg (some "<p>dice-roll</p>") none

/-- A second alias-less payload with the same normalized text. -/
def msgNoAlias2 : Msg := plainMsg (some "dice-roll") none

/-- An alias-less dialogue message. -/
def msgHiNoAlias1 : Msg := plainMsg (some "<p>Hi</p>") none

/-- A second alias-less dialogue message with the same normalized text. -/
def msgHiNoAlias2 : Msg := plainMsg (some "Hi") none

/-- A whispered message matching the AFK pattern. -/
def msgWhisperedAfk : Msg := ⟨some "<p>brb 5 min</p>", "", some "Alice", ["gm"], false, none, 0⟩

/-- Ordinary prose that merely mentions the roll marker substring. -/
def msgProseRoll : Msg := plainMsg (some "talking about dice-roll mechanics") (some "Alice")

/-! ### Lemmas: words produced by the whitespace normalizer -/

/-- A valid word list: every word is nonempty and whitespace-free. -/
def ValidWords (ws : List (List Char)) : Prop :=
  ∀ w ∈ ws, w ≠ [] ∧ ∀ c ∈ w, isWsChar c = false

theorem mem_rev_cons_aux {c a : Char} {as : List Char}
    (h : c ∈ as.reverse ++ [a]) : c ∈ a :: as := by
  rcases List.mem_append.mp h with h | h
  · exact List.mem_cons_of_mem _ (List.mem_reverse.mp h)
  · simp only [List.mem_singleton] at h
    simp [h]

theorem wordsAux_sound (cs : List Char) : ∀ acc : List Char,
    (∀ c ∈ acc, isWsChar c = false) → ValidWords (wordsAux acc cs) := by
  induction cs with
  | nil =>
    intro acc hacc w hw
    cases acc with
    | nil => simp [wordsAux] at hw
    | cons a as =>
      simp [wordsAux] at hw
      subst hw
      exact ⟨by simp, fun c hc => hacc c (mem_rev_cons_aux hc)⟩
  | cons c cs ih =>
    intro acc hacc w hw
    by_cases hws : isWsChar c = true
    · cases acc with
      | nil =>
        simp [wordsAux, hws] at hw
        exact ih [] (by simp) w hw
      | cons a as =>
        simp [wordsAux, hws] at hw
        rcases hw with hw | hw
        · subst hw
          exact ⟨by simp, fun x hx => hacc x (mem_rev_cons_aux hx)⟩
        · exact ih [] (by simp) w hw
    · rw [Bool.not_eq_true] at hws
      simp only [wordsAux, hws] at hw
      simp only [Bool.false_eq_true, if_false] at hw
      refine ih (c :: acc) ?_ w hw
      intro x hx
      rcases List.mem_cons.mp hx with h | h
      · subst h; exact hws
      · exact hacc x h

theorem clean_words_valid (l : List Char) : ValidWords (wordsAux [] l) :=
  wordsAux_sound l [] (by simp)

theorem mem_unwords_ws {ws : List (List Char)} (hv : ValidWords ws) :
    ∀ c ∈ unwords ws, isWsChar c = true → c = ' ' := by
  induction ws with
  | nil => intro c hc; simp [unwords] at hc
  | cons w ws ih =>
    intro c hc hcw
    cases ws with
    | nil =>
      simp only [unwords] at hc
      exact absurd hcw (by simp [(hv w (by simp)).2 c hc])
    | cons w2 ws2 =>
      simp only [unwords, List.mem_append, List.mem_cons] at hc
      rcases hc with hc | hc | hc
      · exact absurd hcw (by simp [(hv w (by simp)).2 c hc])
      · exact hc
      · exact ih (fun x hx => hv x (List.mem_cons_of_mem _ hx)) c hc hcw

theorem lastNonWs_append (l1 : List Char) : ∀ l2 : List Char, l2 ≠ [] →
    lastNonWs (l1 ++ l2) = lastNonWs l2 := by
  induction l1 with
  | nil => intro l2 _; rfl
  | cons a l1 ih =>
    intro l2 h2
    have hne : l1 ++ l2 ≠ [] := by
      simp only [ne_eq, List.append_eq_nil]
      rintro ⟨-, h⟩; exact h2 h
    rcases List.exists_cons_of_ne_nil hne with ⟨y, ys, hy⟩
    rw [List.cons_append, hy]
    show lastNonWs (y :: ys) = lastNonWs l2
    rw [← hy, ih l2 h2]

theorem lastNonWs_word {w : List Char} (hne : w ≠ [])
    (hnw : ∀ c ∈ w, isWsChar c = false) : lastNonWs w = true := by
  induction w with
  | nil => exact absurd rfl hne
  | cons a w ih =>
    cases w with
    | nil => simp [lastNonWs, hnw a (by simp)]
    | cons b w2 =>
      show lastNonWs (b :: w2) = true
      exact ih (by simp) (fun c hc => hnw c (List.mem_cons_of_mem _ hc))

theorem lastNonWs_allws {r : List Char} (hne : r ≠ [])
    (hws : ∀ c ∈ r, isWsChar c = true) : lastNonWs r = false := by
  induction r with
  | nil => exact absurd rfl hne
  | cons a r ih =>
    cases r with
    | nil => simp [lastNonWs, hws a (by simp)]
    | cons b r2 =>
      show lastNonWs (b :: r2) = false
      exact ih (by simp) (fun c hc => hws c (List.mem_cons_of_mem _ hc))

theorem lastNonWs_unwords {ws : List (List Char)} (hv : ValidWords ws) :
    lastNonWs (unwords ws) = true := by
  induction ws with
  | nil => rfl
  | cons w ws ih =>
    cases ws with
    | nil => exact lastNonWs_word (hv w (by simp)).1 (hv w (by simp)).2
    | cons w2 ws2 =>
      have hv2 : ValidWords (w2 :: ws2) := fun x hx => hv x (List.mem_cons_of_mem _ hx)
      have hne : unwords (w2 :: ws2) ≠ [] := by
        have h1 := (hv2 w2 (by simp)).1
        cases ws2 with
        | nil => exact h1
        | cons w3 ws3 =>
          simp only [unwords, ne_eq, List.append_eq_nil, not_and]
          intro h; exact absurd h h1
      show lastNonWs (w ++ ' ' :: unwords (w2 :: ws2)) = true
      rw [lastNonWs_append w _ (by simp)]
      show lastNonWs ([' '] ++ unwords (w2 :: ws2)) = true
      rw [lastNonWs_append [' '] _ hne]
      exact ih hv2

theorem mk_ne_empty {l : List Char} (h : l ≠ []) : (⟨l⟩ : String) ≠ "" := by
  intro he
  exact h (congrArg String.data he)

theorem trimL_cons_nonws {e : Char} {t : List Char} (he : isWsChar e = false) :
    trimL (e :: t) ≠ [] := by
  unfold trimL
  rw [List.dropWhile_cons]
  simp only [he, Bool.false_eq_true, if_false]
  intro hcon
  rw [List.reverse_eq_nil_iff] at hcon
  rw [List.dropWhile_eq_nil_iff] at hcon
  have : isWsChar e = true := hcon e (by simp)
  simp [he] at this

theorem subhead_group_nonempty {raw : String} {g : List Char}
    (h : subheaderGroup (clean_html raw).data = some g) : trimS ⟨g⟩ ≠ "" := by
  have hv : ValidWords (wordsAux [] (getTextL raw.data)) := clean_words_valid _
  have hlast : lastNonWs (clean_html raw).data = true := lastNonWs_unwords hv
  have hmemws : ∀ c ∈ (clean_html raw).data, isWsChar c = true → c = ' ' :=
    mem_unwords_ws hv
  unfold subheaderGroup at h
  rcases hd : (clean_html raw).data.dropWhile isWsChar with _ | ⟨c1, d1⟩
  · rw [hd] at h; exact absurd h (by simp)
  rcases d1 with _ | ⟨c2, d2⟩
  · rw [hd] at h; exact absurd h (by simp)
  rcases d2 with _ | ⟨c3, r⟩
  · rw [hd] at h; exact absurd h (by simp)
  rw [hd] at h
  simp only [] at h
  by_cases hhash : c1 = '#' ∧ c2 = '#' ∧ c3 = '#'
  case neg => rw [if_neg hhash] at h; exact absurd h (by simp)
  rw [if_pos hhash] at h
  -- membership of r in the cleaned text
  have hmem_r : ∀ x ∈ c1 :: c2 :: c3 :: r, x ∈ (clean_html raw).data := by
    intro x hx
    have hx2 : x ∈ (clean_html raw).data.dropWhile isWsChar := by rw [hd]; exact hx
    exact (List.dropWhile_sublist isWsChar).subset hx2
  rcases r with _ | ⟨c, r'⟩
  · exact absurd h (by simp)
  dsimp only at h
  by_cases hcw : isWsChar c = true
  case neg =>
    rw [Bool.not_eq_true] at hcw
    rw [if_neg (by simp [hcw])] at h
    exact absurd h (by simp)
  rw [if_pos (by simp [hcw])] at h
  rcases hE : (c :: r').dropWhile isWsChar with _ | ⟨e, t⟩
  · -- the whole tail is whitespace: the cleaned text would end in whitespace
    exfalso
    have hall : ∀ x ∈ c :: r', isWsChar x = true := by
      rw [← List.dropWhile_eq_nil_iff]
      exact hE
    have h1 : lastNonWs (clean_html raw).data
        = lastNonWs ((clean_html raw).data.dropWhile isWsChar) := by
      conv_lhs => rw [← List.takeWhile_append_dropWhile (p := isWsChar)
        (l := (clean_html raw).data)]
      rw [lastNonWs_append _ _ (by rw [hd]; simp)]
    rw [hd] at h1
    have h2 : lastNonWs (c1 :: c2 :: c3 :: c :: r' : List Char)
        = lastNonWs (c :: r') := by
      show lastNonWs ([c1, c2, c3] ++ (c :: r')) = lastNonWs (c :: r')
      exact lastNonWs_append _ _ (by simp)
    rw [hlast, h2] at h1
    rw [lastNonWs_allws (by simp) hall] at h1
    exact Bool.true_eq_false.mp h1
  · -- nonempty remainder starting with a non-whitespace character
    have he : isWsChar e = false := by
      have := List.head?_dropWhile_not isWsChar (c :: r')
      rw [hE] at this
      simpa using this
    rw [hE] at h
    unfold dotStarDollar at h
    by_cases hnl : ((e :: t).dropLast).contains '\n' = true
    · rw [if_pos hnl] at h; exact absurd h (by simp)
    rw [if_neg hnl] at h
    by_cases hlastnl : (e :: t).getLast? = some '\n'
    · exfalso
      have hmemnl : '\n' ∈ (e :: t : List Char) := List.mem_of_getLast?_eq_some hlastnl
      have hmemnl2 : '\n' ∈ (c :: r' : List Char) := by
        have : '\n' ∈ (c :: r').dropWhile isWsChar := by rw [hE]; exact hmemnl
        exact (List.dropWhile_sublist isWsChar).subset this
      have : '\n' ∈ (clean_html raw).data :=
        hmem_r '\n' (by simp [hmemnl2])
      have := hmemws '\n' this (by decide)
      exact absurd this (by decide)
    rw [if_neg hlastnl] at h
    have hg : g = e :: t := (Option.some.injEq _ _ ▸ h).symm
    rw [hg]
    exact mk_ne_empty (trimL_cons_nonws he)

theorem tokAux_id : ∀ l : List Char, (∀ c ∈ l, c ≠ '&' ∧ c ≠ '<') →
    tokAux none l = l.map RawTok.ch := by
  intro l
  induction l with
  | nil => intro _; rfl
  | cons c cs ih =>
    intro h
    have hc := h c (by simp)
    have hstep : tokAux none (c :: cs) = RawTok.ch c :: tokAux none cs := by
      conv_lhs => rw [tokAux.eq_def]
      split <;> first
        | (exfalso; simp_all; done)
        | rfl
        | (rename_i heq; injection heq with h1 h2; subst h1; subst h2; rfl)
    rw [hstep, ih (fun x hx => h x (List.mem_cons_of_mem _ hx))]
    rfl

theorem filterMap_map_ch (l : List Char) : (l.map RawTok.ch).filterMap tokChar = l := by
  induction l with
  | nil => rfl
  | cons c cs ih => simp [tokChar, ih]

theorem getTextL_id (l : List Char) (h : ∀ c ∈ l, c ≠ '&' ∧ c ≠ '<') : getTextL l = l := by
  unfold getTextL
  rw [tokAux_id l h, filterMap_map_ch]

theorem wordsAux_nil (acc : List Char) :
    wordsAux acc [] = if acc.isEmpty then [] else [acc.reverse] := rfl

theorem wordsAux_cons (acc : List Char) (c : Char) (cs : List Char) :
    wordsAux acc (c :: cs) =
      if isWsChar c then
        (if acc.isEmpty then wordsAux [] cs else acc.reverse :: wordsAux [] cs)
      else wordsAux (c :: acc) cs := rfl

theorem wordsAux_word_end : ∀ w : List Char, w ≠ [] → (∀ c ∈ w, isWsChar c = false) →
    ∀ acc : List Char, wordsAux acc w = [acc.reverse ++ w] := by
  intro w
  induction w with
  | nil => intro hne; exact absurd rfl hne
  | cons d w ih =>
    intro _ hnw acc
    have hd : isWsChar d = false := hnw d (by simp)
    rw [wordsAux_cons, hd]
    simp only [Bool.false_eq_true, if_false]
    rcases w with _ | ⟨e, w'⟩
    · rw [wordsAux_nil]
      simp [List.reverse_cons]
    · rw [ih (by simp) (fun c hc => hnw c (List.mem_cons_of_mem _ hc)) (d :: acc)]
      rw [List.reverse_cons, List.append_assoc]
      rfl

theorem wordsAux_word_step : ∀ w : List Char, w ≠ [] → (∀ c ∈ w, isWsChar c = false) →
    ∀ acc rest : List Char,
    wordsAux acc (w ++ ' ' :: rest) = (acc.reverse ++ w) :: wordsAux [] rest := by
  intro w
  induction w with
  | nil => intro hne; exact absurd rfl hne
  | cons d w ih =>
    intro _ hnw acc rest
    have hd : isWsChar d = false := hnw d (by simp)
    rw [List.cons_append, wordsAux_cons, hd]
    simp only [Bool.false_eq_true, if_false]
    rcases w with _ | ⟨e, w'⟩
    · rw [List.nil_append, wordsAux_cons]
      simp [List.reverse_cons, isWsChar]
    · rw [ih (by simp) (fun c hc => hnw c (List.mem_cons_of_mem _ hc)) (d :: acc) rest]
      rw [List.reverse_cons, List.append_assoc]
      rfl

theorem words_unwords {ws : List (List Char)} (hv : ValidWords ws) :
    wordsAux [] (unwords ws) = ws := by
  induction ws with
  | nil => rfl
  | cons w ws ih =>
    rcases ws with _ | ⟨w2, ws2⟩
    · show wordsAux [] w = [w]
      simpa using wordsAux_word_end w (hv w (by simp)).1 (hv w (by simp)).2 []
    · show wordsAux [] (w ++ ' ' :: unwords (w2 :: ws2)) = w :: w2 :: ws2
      rw [wordsAux_word_step w (hv w (by simp)).1 (hv w (by simp)).2 [] _]
      simp only [List.reverse_nil, List.nil_append]
      rw [ih (fun x hx => hv x (List.mem_cons_of_mem _ hx))]

theorem normWsL_idem (l : List Char) : normWsL (normWsL l) = normWsL l := by
  unfold normWsL
  rw [words_unwords (clean_words_valid l)]

/-! ### Lemmas: unfolding the classification step -/

theorem step_of_content {cfg : Config} {k : Option DupKey} {m : Msg} {raw : String}
    (h : m.content = some raw) : step cfg k m = stepContent cfg k m (clean_html raw) := by
  unfold step
  rw [h]

theorem step_drop {cfg : Config} {k : Option DupKey} {m : Msg}
    (h : m.content = none ∨ ∃ raw, m.content = some raw ∧ clean_html raw = "") :
    step cfg k m = ⟨[], [], none⟩ := by
  rcases h with h | ⟨raw, h1, h2⟩
  · unfold step; rw [h]
  · rw [step_of_content h1]
    unfold stepContent
    rw [if_pos h2]

theorem step_afk_eq {cfg : Config} {k : Option DupKey} {m : Msg} {raw : String}
    (h1 : m.content = some raw) (h2 : clean_html raw ≠ "")
    (h3 : cfg.omitAfk = true) (h4 : cfg.afkMatch (clean_html raw) = true) :
    step cfg k m = ⟨[], [⟨"AFK", speakerOf cfg m, clean_html raw⟩], k⟩ := by
  rw [step_of_content h1]
  unfold stepContent
  rw [if_neg h2, h3, h4]
  simp

theorem step_not_afk {cfg : Config} {k : Option DupKey} {m : Msg} {raw : String}
    (h1 : m.content = some raw) (h2 : clean_html raw ≠ "")
    (h3 : (cfg.omitAfk && cfg.afkMatch (clean_html raw)) = false) :
    step cfg k m = stepSub cfg k m (clean_html raw) := by
  rw [step_of_content h1]
  unfold stepContent
  rw [if_neg h2, h3]
  simp

theorem stepSub_none {cfg : Config} {k : Option DupKey} {m : Msg} {cleaned : String}
    (h : (if cfg.subheadBookmarks then subheaderGroup cleaned.data else none) = none) :
    stepSub cfg k m cleaned = stepVis cfg k m cleaned := by
  unfold stepSub
  rw [h]

theorem stepVis_none {cfg : Config} {k : Option DupKey} {m : Msg} {cleaned : String}
    (h : should_omit_visibility cfg m = none) :
    stepVis cfg k m cleaned = stepDup cfg k m cleaned := by
  unfold stepVis
  rw [h]

theorem stepDup_dup {cfg : Config} {k : Option DupKey} {m : Msg} {cleaned : String}
    (h : k = some (trimS (speakerOf cfg m), trimS cleaned)) :
    stepDup cfg k m cleaned = ⟨[], [⟨"DUPLICATE", speakerOf cfg m, cleaned⟩], k⟩ := by
  simp only [stepDup]
  rw [if_pos h]

theorem stepDup_roll {cfg : Config} {k : Option DupKey} {m : Msg} {cleaned s : String}
    (h6 : ¬ k = some (trimS (speakerOf cfg m), trimS cleaned))
    (h7 : extract_roll_info cfg m = some s) :
    stepDup cfg k m cleaned =
      ⟨[Block.para (speakerOf cfg m) s 0], [],
        some (trimS (speakerOf cfg m), trimS s)⟩ := by
  simp only [stepDup]
  rw [if_neg h6, h7]

theorem stepDup_dialogue {cfg : Config} {k : Option DupKey} {m : Msg} {cleaned : String}
    (h6 : ¬ k = some (trimS (speakerOf cfg m), trimS cleaned))
    (h7 : extract_roll_info cfg m = none) :
    stepDup cfg k m cleaned =
      ⟨[Block.para (speakerOf cfg m) cleaned m.style], [],
        some (trimS (speakerOf cfg m), trimS cleaned)⟩ := by
  simp only [stepDup]
  rw [if_neg h6, h7]

theorem step_roll_eq {cfg : Config} {k : Option DupKey} {m : Msg} {raw s : String}
    (h1 : m.content = some raw) (h2 : clean_html raw ≠ "")
    (h3 : (cfg.omitAfk && cfg.afkMatch (clean_html raw)) = false)
    (h4 : (if cfg.subheadBookmarks then subheaderGroup (clean_html raw).data else none) = none)
    (h5 : should_omit_visibility cfg m = none)
    (h6 : ¬ k = some (trimS (speakerOf cfg m), trimS (clean_html raw)))
    (h7 : extract_roll_info cfg m = some s) :
    step cfg k m =
      ⟨[Block.para (speakerOf cfg m) s 0], [],
        some (trimS (speakerOf cfg m), trimS s)⟩ := by
  rw [step_not_afk h1 h2 h3, stepSub_none h4, stepVis_none h5, stepDup_roll h6 h7]

theorem stepVis_some {cfg : Config} {k : Option DupKey} {m : Msg} {cleaned r : String}
    (h : should_omit_visibility cfg m = some r) :
    stepVis cfg k m cleaned = ⟨[], [⟨r, speakerOf cfg m, cleaned⟩], k⟩ := by
  unfold stepVis
  rw [h]

theorem rolls_append (sp : String) :
    sp ++ " rolls " ++ "?" ++ " -> " ++ "?" = sp ++ " rolls ? -> ?" := by
  rw [String.append_assoc, String.append_assoc, String.append_assoc]
  exact congrArg (sp ++ ·) (by decide)

/-! ### Claim theorems -/

/-- C1: for every message, the classification step produces exactly one
outcome: it is dropped (no block, no audit entry) exactly when its content is
absent or normalizes to the empty string, and otherwise it emits exactly one
block or exactly one omission record, never both and never neither. -/
theorem classification_exactly_one (cfg : Config) (k : Option DupKey) (m : Msg) :
    ((step cfg k m).blocks = [] ∧ (step cfg k m).omits = [] ∧
      (m.content = none ∨ clean_html (m.content.getD "") = "")) ∨
    ((step cfg k m).blocks.length = 1 ∧ (step cfg k m).omits = []) ∨
    ((step cfg k m).omits.length = 1 ∧ (step cfg k m).blocks = []) := by
  rcases hc : m.content with _ | raw
  · left
    rw [step_drop (Or.inl hc)]
    exact ⟨rfl, rfl, Or.inl rfl⟩
  by_cases h2 : clean_html raw = ""
  · left
    rw [step_drop (Or.inr ⟨raw, hc, h2⟩)]
    exact ⟨rfl, rfl, Or.inr (by simpa using h2)⟩
  by_cases h3 : (cfg.omitAfk && cfg.afkMatch (clean_html raw)) = true
  · right; right
    rcases Bool.and_eq_true_iff.mp h3 with ⟨h3a, h3b⟩
    rw [step_afk_eq hc h2 h3a h3b]
    exact ⟨rfl, rfl⟩
  rw [Bool.not_eq_true] at h3
  rw [step_not_afk hc h2 h3]
  rcases hsub : (if cfg.subheadBookmarks then subheaderGroup (clean_html raw).data else none)
    with _ | g
  case neg.none =>
    rw [stepSub_none hsub]
    rcases hv : should_omit_visibility cfg m with _ | r
    case none =>
      rw [stepVis_none hv]
      by_cases hdup : k = some (trimS (speakerOf cfg m), trimS (clean_html raw))
      · right; right
        rw [stepDup_dup hdup]
        exact ⟨rfl, rfl⟩
      rcases hroll : extract_roll_info cfg m with _ | s
      · right; left
        rw [stepDup_dialogue hdup hroll]
        exact ⟨rfl, rfl⟩
      · right; left
        rw [stepDup_roll hdup hroll]
        exact ⟨rfl, rfl⟩
    case some =>
      right; right
      rw [stepVis_some hv]
      exact ⟨rfl, rfl⟩
  case neg.some =>
    have hg : subheaderGroup (clean_html raw).data = some g := by
      by_cases hb : cfg.subheadBookmarks = true
      · rwa [hb, if_pos rfl] at hsub
      · rw [Bool.not_eq_true] at hb
        rw [hb] at hsub
        simp at hsub
    have hne := subhead_group_nonempty hg
    right; left
    unfold stepSub
    rw [hsub]
    dsimp only
    rw [if_pos hne]
    exact ⟨rfl, rfl⟩

/-- C2: when AFK omission is enabled and the normalized text matches the AFK
pattern, the message is classified `Omitted(AFK)` regardless of its whisper
list, blind flag, rollMode, subheader shape or the current duplicate key, and
the duplicate key is left unchanged. -/
theorem afk_takes_precedence (cfg : Config) (k : Option DupKey) (m : Msg) (raw : String)
    (h1 : m.content = some raw) (h2 : clean_html raw ≠ "")
    (h3 : cfg.omitAfk = true) (h4 : cfg.afkMatch (clean_html raw) = true) :
    step cfg k m = ⟨[], [⟨"AFK", speakerOf cfg m, clean_html raw⟩], k⟩ :=
  step_afk_eq h1 h2 h3 h4

/-- Witness for C2: a whispered message matching the default AFK pattern is
tagged `AFK`, not `WHISPER`, and the duplicate key stays what it was. -/
theorem afk_takes_precedence_witness :
    step defaultConfig (some ("X", "Y")) msgWhisperedAfk =
      ⟨[], [⟨"AFK", "Alice", "brb 5 min"⟩], some ("X", "Y")⟩ := by
  have h := afk_takes_precedence defaultConfig (some ("X", "Y")) msgWhisperedAfk
    "<p>brb 5 min</p>" rfl (by decide) (by decide) (by decide)
  rw [h]
  decide

/-- C3: duplicate suppression compares only against the immediately
preceding accepted message and omitted messages never become the key:
`[A, A, B, A]` yields blocks `[A, B, A]` with exactly one `DUPLICATE`
omission, and `[A, whispered-A, A]` yields one block, one `Omitted(WHISPER)`
and one `Omitted(DUPLICATE)` (the final A compared against the first A). -/
theorem duplicate_suppression_scenarios :
    processSession defaultConfig [msgSame, msgSame, msgOther, msgSame] =
      ([Block.para "Alice" "Same" 0, Block.para "Alice" "Other" 0,
        Block.para "Alice" "Same" 0],
       [⟨"DUPLICATE", "Alice", "Same"⟩]) ∧
    processSession defaultConfig [msgSame, msgSameWhispered, msgSame] =
      ([Block.para "Alice" "Same" 0],
       [⟨"WHISPER", "Alice", "Same"⟩, ⟨"DUPLICATE", "Alice", "Same"⟩]) :=
  ⟨by decide, by decide⟩

/-- Counterexample for C4: two structurally different raw roll payloads that
render to the identical summary are NOT treated as duplicates of each other —
both are accepted as blocks and no `DUPLICATE` omission is recorded, because
the duplicate check compares the normalized text of the new message (not its
rendered summary) against the stored key. -/
theorem roll_duplicate_counterexample :
    extract_roll_info defaultConfig msgRollDiv = some "Alice rolls ? -> ?" ∧
    extract_roll_info defaultConfig msgRollPP = some "Alice rolls ? -> ?" ∧
    msgRollDiv.content ≠ msgRollPP.content ∧
    processSession defaultConfig [msgRollDiv, msgRollPP] =
      ([Block.para "Alice" "Alice rolls ? -> ?" 0,
        Block.para "Alice" "Alice rolls ? -> ?" 0], []) :=
  ⟨by decide, by decide, by decide, by decide⟩

/-- C4 (amended): when a message is accepted as a roll the duplicate key is
set to `(speaker, rendered summary)` rather than the raw markup; a later
message is therefore tagged `DUPLICATE` exactly when its own normalized text
equals that rendered summary — not when it merely renders to the same
summary. -/
theorem roll_key_is_rendered_summary :
    (∀ (cfg : Config) (k : Option DupKey) (m : Msg) (raw s : String),
      m.content = some raw → clean_html raw ≠ "" →
      (cfg.omitAfk && cfg.afkMatch (clean_html raw)) = false →
      (if cfg.subheadBookmarks then subheaderGroup (clean_html raw).data else none) = none →
      should_omit_visibility cfg m = none →
      ¬ k = some (trimS (speakerOf cfg m), trimS (clean_html raw)) →
      extract_roll_info cfg m = some s →
      step cfg k m = ⟨[Block.para (speakerOf cfg m) s 0], [],
        some (trimS (speakerOf cfg m), trimS s)⟩) ∧
    processSession defaultConfig [msgRollDiv, msgRollEcho] =
      ([Block.para "Alice" "Alice rolls ? -> ?" 0],
       [⟨"DUPLICATE", "Alice", "Alice rolls ? -> ?"⟩]) :=
  ⟨fun _ _ _ _ _ h1 h2 h3 h4 h5 h6 h7 => step_roll_eq h1 h2 h3 h4 h5 h6 h7, by decide⟩

/-- Witness for C4 (amended): the accepted roll message stores the rendered
summary, not the raw markup, as the duplicate key. -/
theorem roll_key_is_rendered_summary_witness :
    step defaultConfig none msgRollDiv =
      ⟨[Block.para "Alice" "Alice rolls ? -> ?" 0], [],
        some ("Alice", "Alice rolls ? -> ?")⟩ := by
  have h := roll_key_is_rendered_summary.1 defaultConfig none msgRollDiv
    "<div>dice-roll</div>" "Alice rolls ? -> ?" rfl (by decide) (by decide) (by decide)
    (by decide) (by decide) (by decide)
  rw [h]
  decide

/-- C5: a message with absent content or empty normalized content is dropped
and resets the duplicate key, so an empty message breaks a duplicate streak:
the Hello/Hello/empty/Hello session yields exactly the two rendered blocks
and one `DUPLICATE` omission for the second message. -/
theorem empty_drop_resets_key :
    ((processSession defaultConfig [msgHello, msgHello, msgEmptyContent, msgHello]).1.map
        renderBlock = ["Alice: Hello", "Alice: Hello"] ∧
      (processSession defaultConfig [msgHello, msgHello, msgEmptyContent, msgHello]).2 =
        [⟨"DUPLICATE", "Alice", "Hello"⟩]) ∧
    ∀ (cfg : Config) (k : Option DupKey) (m : Msg),
      (m.content = none ∨ ∃ raw, m.content = some raw ∧ clean_html raw = "") →
      step cfg k m = ⟨[], [], none⟩ :=
  ⟨⟨by decide, by decide⟩, fun _ _ _ h => step_drop h⟩

/-- Witness for C5: an empty-content message drops and resets the key even
when a duplicate streak is pending. -/
theorem empty_drop_resets_key_witness :
    step defaultConfig (some ("Alice", "Hello")) msgEmptyContent = ⟨[], [], none⟩ :=
  empty_drop_resets_key.2 defaultConfig (some ("Alice", "Hello")) msgEmptyContent
    (Or.inr ⟨"", rfl, by decide⟩)

/-- C6: a numeric (or all-digits string) timestamp candidate is interpreted
as epoch milliseconds when it exceeds `10^12` and as epoch seconds
otherwise, each through the range-checked `fromtimestamp` (an out-of-range
epoch, such as `10^12` read as seconds, raises and yields no date), and a
resolved date is formatted as `Month day, year`: both `1700000000000` and
`"1700000000"` resolve to November 14, 2023. -/
theorem epoch_millis_vs_seconds :
    (∀ n : Int, n > 10 ^ 12 →
      parse_iso_or_epoch (TsValue.num n) = fromtimestampYMD (n.fdiv 1000)) ∧
    (∀ n : Int, ¬ n > 10 ^ 12 →
      parse_iso_or_epoch (TsValue.num n) = fromtimestampYMD n) ∧
    parse_iso_or_epoch (TsValue.num 1700000000000) = some (2023, 11, 14) ∧
    parse_iso_or_epoch (TsValue.strv "1700000000") = some (2023, 11, 14) ∧
    parse_iso_or_epoch (TsValue.num (10 ^ 12)) = none ∧
    formatSessionDate (2023, 11, 14) = "November 14, 2023" := by
  refine ⟨?_, ?_, by decide, by decide, by decide, by decide⟩
  · intro n h
    simp only [parse_iso_or_epoch, epochNumToYMD]
    rw [if_pos h]
  · intro n h
    simp only [parse_iso_or_epoch, epochNumToYMD]
    rw [if_neg h]

/-- Witness for C6: the millisecond branch fires above `10^12` and the
seconds branch at or below it. -/
theorem epoch_millis_vs_seconds_witness :
    parse_iso_or_epoch (TsValue.num 1700000000000) =
      fromtimestampYMD ((1700000000000 : Int).fdiv 1000) ∧
    parse_iso_or_epoch (TsValue.num 1700000000) = fromtimestampYMD 1700000000 :=
  ⟨epoch_millis_vs_seconds.1 1700000000000 (by norm_num),
   epoch_millis_vs_seconds.2.1 1700000000 (by norm_num)⟩

/-- Counterexample for C7: an unparseable yes/no value does NOT fall back to
the documented default — `OMIT_WHISPERS` defaults to enabled, but setting it
to a garbage value disables it, because `is_yes` treats everything other than
`YES` as no. -/
theorem garbage_bool_counterexample :
    is_yes (("OMIT_WHISPERS", "garbage") :: CONFIG0) "OMIT_WHISPERS" = false ∧
    is_yes CONFIG0 "OMIT_WHISPERS" = true :=
  ⟨by decide, by decide⟩

/-- C7 (amended): a set yes/no value is enabled exactly when it trims and
upper-cases to `YES` (so a garbage value is treated as no, not as the
documented default); only an unset key falls back to the documented default
(enabled for `OMIT_WHISPERS`, disabled for `OMIT_PUBLIC_ROLLS`). -/
theorem garbage_bool_treated_as_no :
    (∀ (raw : List (String × String)) (k v : String),
      is_yes ((k, v) :: raw) k = (upperS (trimS v) == "YES")) ∧
    is_yes CONFIG0 "OMIT_WHISPERS" = true ∧
    is_yes CONFIG0 "OMIT_PUBLIC_ROLLS" = false := by
  refine ⟨?_, by decide, by decide⟩
  intro raw k v
  simp [is_yes, cfgGet]

/-- Counterexample for C8: the normalizer is not idempotent — entity
references decode to markup-significant characters, so a second pass strips
text that the first pass produced. -/
theorem normalizer_idempotence_counterexample :
    clean_html (clean_html "&lt;b&gt;") ≠ clean_html "&lt;b&gt;" := by decide

/-- C8 (amended): the normalizer is idempotent on every input whose
normalized output contains no markup-significant character (`<` or `&`);
in general it is not idempotent, because entity decoding can reintroduce
markup that a second pass strips. -/
theorem normalizer_idempotent_on_plain_text (s : String)
    (h : ∀ c ∈ (clean_html s).data, c ≠ '<' ∧ c ≠ '&') :
    clean_html (clean_html s) = clean_html s := by
  show (⟨normWsL (getTextL (clean_html s).data)⟩ : String) = clean_html s
  rw [getTextL_id _ (fun c hc => ⟨(h c hc).2, (h c hc).1⟩)]
  show (⟨normWsL (normWsL (getTextL s.data))⟩ : String) = clean_html s
  rw [normWsL_idem]
  rfl

/-- Witness for C8 (amended): markup-free normalized text is a fixed point of
the normalizer. -/
theorem normalizer_idempotent_on_plain_text_witness :
    clean_html (clean_html "<p> hello   world </p>") =
      clean_html "<p> hello   world </p>" :=
  normalizer_idempotent_on_plain_text "<p> hello   world </p>" (by decide)

/-- C9: an accepted message whose raw content contains the substring
`dice-roll` anywhere — prose included — is rendered as a roll block, and when
the content has no `.dice-formula` or `.dice-total` element (and no flavor)
the rendered line is `<speaker> rolls ? -> ?`, not the own text of the message. -/
theorem prose_marker_renders_roll :
    (∀ (cfg : Config) (m : Msg) (content : String),
      m.content = some content →
      containsSub "dice-roll".data content.data = true →
      selectClassText "dice-formula" content = none →
      selectClassText "dice-total" content = none →
      trimS (stripAngleTags m.flavor) = "" →
      extract_roll_info cfg m = some (speakerOf cfg m ++ " rolls ? -> ?")) ∧
    (∀ (cfg : Config) (k : Option DupKey) (m : Msg) (raw : String),
      m.content = some raw → clean_html raw ≠ "" →
      (cfg.omitAfk && cfg.afkMatch (clean_html raw)) = false →
      (if cfg.subheadBookmarks then subheaderGroup (clean_html raw).data else none) = none →
      should_omit_visibility cfg m = none →
      ¬ k = some (trimS (speakerOf cfg m), trimS (clean_html raw)) →
      containsSub "dice-roll".data raw.data = true →
      ∃ s, extract_roll_info cfg m = some s ∧
        step cfg k m = ⟨[Block.para (speakerOf cfg m) s 0], [],
          some (trimS (speakerOf cfg m), trimS s)⟩) := by
  constructor
  · intro cfg m content h1 h2 h3 h4 h5
    unfold extract_roll_info
    rw [h1]
    simp only [Option.getD_some, h2, if_true, h3, h4, h5]
    simp only [Option.getD_none, ne_eq, not_true_eq_false, if_false]
    rw [rolls_append]
  · intro cfg k m raw h1 h2 h3 h4 h5 h6 h7
    have hsome : ∃ s, extract_roll_info cfg m = some s := by
      unfold extract_roll_info
      rw [h1]
      simp only [Option.getD_some, h7, if_true]
      exact ⟨_, rfl⟩
    rcases hsome with ⟨s, hs⟩
    exact ⟨s, hs, step_roll_eq h1 h2 h3 h4 h5 h6 hs⟩

/-- Witness for C9: prose mentioning `dice-roll` becomes a roll block whose
line is the placeholder summary, not the prose itself. -/
theorem prose_marker_renders_roll_witness :
    extract_roll_info defaultConfig msgProseRoll =
      some (speakerOf defaultConfig msgProseRoll ++ " rolls ? -> ?") ∧
    (∃ s, extract_roll_info defaultConfig msgProseRoll = some s ∧
      step defaultConfig none msgProseRoll =
        ⟨[Block.para (speakerOf defaultConfig msgProseRoll) s 0], [],
          some (trimS (speakerOf defaultConfig msgProseRoll), trimS s)⟩) :=
  ⟨prose_marker_renders_roll.1 defaultConfig msgProseRoll
      "talking about dice-roll mechanics" rfl (by decide) (by decide) (by decide)
      (by decide),
   prose_marker_renders_roll.2 defaultConfig none msgProseRoll
      "talking about dice-roll mechanics" rfl (by decide) (by decide) (by decide)
      (by decide) (by decide) (by decide)⟩

/-- Counterexample for C10: two consecutive alias-less messages with
identical normalized text are NOT always deduplicated — when the first is
accepted as a roll, the stored key is its rendered summary, so the second is
accepted as well and no `DUPLICATE` omission is recorded. -/
theorem default_speaker_dedup_counterexample :
    msgNoAlias1.speakerAlias = none ∧ msgNoAlias2.speakerAlias = none ∧
    clean_html "<p>dice-roll</p>" = clean_html "dice-roll" ∧
    processSession defaultConfig [msgNoAlias1, msgNoAlias2] =
      ([Block.para "Handler" "Handler rolls ? -> ?" 0,
        Block.para "Handler" "Handler rolls ? -> ?" 0], []) :=
  ⟨rfl, rfl, by decide, by decide⟩

/-- C10 (amended): when a message has no speaker alias the configured
`DEFAULT_SPEAKER` is substituted as the speaker component of the duplicate
key, so two consecutive alias-less messages with identical normalized text
whose first is accepted as plain dialogue are deduplicated; when the first is
accepted as a roll the key holds its rendered summary instead, so the second
is deduplicated only if its text equals that summary. -/
theorem default_speaker_in_duplicate_key :
    (∀ (cfg : Config) (m : Msg), m.speakerAlias = none →
      speakerOf cfg m = cfg.defaultSpeaker) ∧
    processSession defaultConfig [msgHiNoAlias1, msgHiNoAlias2] =
      ([Block.para "Handler" "Hi" 0], [⟨"DUPLICATE", "Handler", "Hi"⟩]) := by
  refine ⟨?_, by decide⟩
  intro cfg m h
  unfold speakerOf
  rw [h]

/-- Witness for C10 (amended): the alias-less message uses the default
speaker name. -/
theorem default_speaker_in_duplicate_key_witness :
    speakerOf defaultConfig msgHiNoAlias1 = defaultConfig.defaultSpeaker :=
  default_speaker_in_duplicate_key.1 defaultConfig msgHiNoAlias1 rfl
